import Mathlib

/-!
Verification of the starknet-jsonrpc-codegen type-generation engine.

The Rust source (`src/main.rs`) is shallowly embedded below: the naming and
documentation normalizers (`to_pascal_case`, `to_sentence_case`,
`to_starknet_rs_name`, `to_starknet_rs_doc`, `wrap_lines`), the global
override table (`get_field_type_override`), and the resolution engine
(`get_rust_type_for_field`, `flatten_schema_fields`, `resolve_types`).
Strings are modelled by Lean `String` (a list of characters); the byte
lengths used by the Rust code coincide with character counts on the ASCII
data the generator processes.  The schema data model lives in the crate's
`spec` module, which is not part of the provided source; it is modelled
from the specification document (see `Schema` below).
-/

/-- `MAX_LINE_LENGTH` from `src/main.rs`. -/
def MAX_LINE_LENGTH : Nat := 100

/-- Model of Rust `str::replace` on character lists: replaces non-overlapping
occurrences of `pat` left to right.  The extra `Nat` argument is the length of
the remaining input, used only to make the recursion structural; the generator
only ever replaces non-empty patterns, for which this coincides with
`str::replace`. -/
def replGo (pat rep : List Char) : Nat → List Char → List Char
  | _, [] => []
  | 0, l => l
  | n + 1, c :: rest =>
    if pat ≠ [] ∧ pat.isPrefixOf (c :: rest) then
      rep ++ replGo pat rep n (rest.drop (pat.length - 1))
    else
      c :: replGo pat rep n rest

/-- Model of Rust `str::replace` on `String`. -/
def replaceS (s pat rep : String) : String :=
  ⟨replGo pat.data rep.data s.data.length s.data⟩

/-- The character-level loop of `to_pascal_case` (`src/main.rs`): tracks the
current index and the index of the most recent underscore, exactly as the Rust
loop does. -/
def toPascalGo : Nat → Option Nat → List Char → List Char
  | _, _, [] => []
  | ind, lastU, c :: rest =>
    if c = '_' then
      toPascalGo (ind + 1) (some ind) rest
    else
      let upper : Bool :=
        match lastU with
        | some l => ind == l + 1
        | none => ind == 0
      (if upper then c.toUpper else c.toLower) :: toPascalGo (ind + 1) lastU rest

/-- `to_pascal_case` from `src/main.rs`. -/
def to_pascal_case (name : String) : String :=
  ⟨toPascalGo 0 none name.data⟩

/-- `to_starknet_rs_name` from `src/main.rs`. -/
def to_starknet_rs_name (name : String) : String :=
  replaceS (to_pascal_case name) "Txn" "Transaction"

/-- The character-level loop of `to_sentence_case` (`src/main.rs`): tracks the
current index, the index of the most recent period, and the previous
character. -/
def toSentenceGo : Nat → Option Nat → Option Char → List Char → List Char
  | _, _, _, [] => []
  | ind, lastP, lastC, c :: rest =>
    let lastP' := if c = '.' then some ind else lastP
    let upper : Bool :=
      match lastP' with
      | some lp => ind == lp + 2 && lastC == some ' '
      | none => ind == 0
    (if upper then c.toUpper else c.toLower) :: toSentenceGo (ind + 1) lastP' (some c) rest

/-- `to_sentence_case` from `src/main.rs`. -/
def to_sentence_case (name : String) : String :=
  ⟨toSentenceGo 0 none none name.data⟩

/-- `to_starknet_rs_doc` from `src/main.rs`. -/
def to_starknet_rs_doc (doc : String) (force_period : Bool) : String :=
  let doc :=
    replaceS
      (replaceS (replaceS (to_sentence_case doc) "starknet" "StarkNet")
        "Starknet" "StarkNet")
      "StarkNet.io" "starknet.io"
  if force_period && !(doc.endsWith ".") then doc ++ "." else doc

/-- The word loop of `wrap_lines` (`src/main.rs`): `cur` is `current_line`;
the returned list appends the flushed lines in order, ending with the final
`current_line` push. -/
def wrapGo (prefix_length : Nat) (cur : String) : List String → List String
  | [] => [cur]
  | part :: parts =>
    let addition : String := (if cur = "" then "" else " ") ++ part
    if prefix_length + cur.length + addition.length ≤ MAX_LINE_LENGTH then
      wrapGo prefix_length (cur ++ addition) parts
    else
      cur :: wrapGo prefix_length part parts

/-- Model of Rust `str::split(' ')` on character lists: splits at every
single space, keeping empty segments (so consecutive spaces and leading or
trailing spaces produce empty words, exactly as in Rust). -/
def splitSpace : List Char → List (List Char)
  | [] => [[]]
  | c :: rest =>
    if c = ' ' then [] :: splitSpace rest
    else
      match splitSpace rest with
      | w :: ws => (c :: w) :: ws
      | [] => [[c]]

/-- The word list `doc.split(' ')` of `wrap_lines`. -/
def split_space (doc : String) : List String :=
  (splitSpace doc.data).map (fun w => ⟨w⟩)

/-- `wrap_lines` from `src/main.rs`: greedy word wrap over the space-split
input. -/
def wrap_lines (doc : String) (prefix_length : Nat) : List String :=
  wrapGo prefix_length "" (split_space doc)

/-- Modelled from the spec: the optional `title`, `description`, `summary`
documentation carried by every schema node (§3: "Each node may carry an
optional title, description, and summary").  The crate's `spec` module, which
declares these data types, is not part of the provided source. -/
structure Meta where
  title : Option String
  description : Option String
  summary : Option String
deriving Repr

mutual

/-- Modelled from the spec: a JSON-Schema node (§3) — a tagged variant over
Reference, OneOf, AllOf, and Primitive, as consumed by `main.rs` through the
patterns `Schema::Ref`, `Schema::OneOf`, `Schema::AllOf`,
`Schema::Primitive`.  The `ref` constructor carries the referenced name (the
`value.name()` accessor of `main.rs`). -/
inductive Schema where
  | ref : String → Meta → Schema
  | oneOf : List Schema → Meta → Schema
  | allOf : List Schema → Meta → Schema
  | primitive : Primitive → Schema
deriving Repr

/-- Modelled from the spec: a primitive schema node (§3) — Object with an
ordered field mapping, Array with an element schema, String with an optional
closed set of enumerated literals, Boolean, Integer. -/
inductive Primitive where
  | object : List (String × Schema) → Meta → Primitive
  | array : Schema → Meta → Primitive
  | string : Option (List String) → Meta → Primitive
  | boolean : Meta → Primitive
  | integer : Meta → Primitive
deriving Repr

end

/-- Modelled from the spec: the `components.schemas` container (§3), an
insertion-ordered mapping from type name to schema node. -/
structure Components where
  schemas : List (String × Schema)

/-- Modelled from the spec: a specification document (§3). -/
structure Specification where
  components : Components

/-- Modelled from the spec: the polymorphic `title()` accessor (§4.1). -/
def Primitive.title : Primitive → Option String
  | .object _ m | .array _ m | .string _ m | .boolean m | .integer m => m.title

/-- Modelled from the spec: the polymorphic `description()` accessor (§4.1). -/
def Primitive.description : Primitive → Option String
  | .object _ m | .array _ m | .string _ m | .boolean m | .integer m => m.description

/-- Modelled from the spec: the polymorphic `summary()` accessor (§4.1). -/
def Primitive.summary : Primitive → Option String
  | .object _ m | .array _ m | .string _ m | .boolean m | .integer m => m.summary

/-- Modelled from the spec: the polymorphic `title()` accessor (§4.1). -/
def Schema.title : Schema → Option String
  | .ref _ m | .oneOf _ m | .allOf _ m => m.title
  | .primitive p => p.title

/-- Modelled from the spec: the polymorphic `description()` accessor (§4.1). -/
def Schema.description : Schema → Option String
  | .ref _ m | .oneOf _ m | .allOf _ m => m.description
  | .primitive p => p.description

/-- Modelled from the spec: the polymorphic `summary()` accessor (§4.1). -/
def Schema.summary : Schema → Option String
  | .ref _ m | .oneOf _ m | .allOf _ m => m.summary
  | .primitive p => p.summary

/-- Lookup in the ordered `components.schemas` map (`IndexMap::get` in the
source). -/
def schemasGet (specs : Specification) (name : String) : Option Schema :=
  List.lookup name specs.components.schemas

/-- `struct RustField` from `src/main.rs`. -/
structure RustField where
  description : Option String
  name : String
  type_name : String
  serde_as : Option String
deriving Repr, DecidableEq

/-- `struct RustVariant` from `src/main.rs`. -/
structure RustVariant where
  description : Option String
  name : String
  serde_name : String
deriving Repr, DecidableEq

/-- `struct RustStruct` from `src/main.rs`. -/
structure RustStruct where
  fields : List RustField
deriving Repr, DecidableEq

/-- `struct RustEnum` from `src/main.rs`. -/
structure RustEnum where
  variants : List RustVariant
deriving Repr, DecidableEq

/-- `struct RustWrapper` from `src/main.rs`. -/
structure RustWrapper where
  type_name : String
deriving Repr, DecidableEq

/-- `enum RustTypeKind` from `src/main.rs`. -/
inductive RustTypeKind where
  | Struct : RustStruct → RustTypeKind
  | Enum : RustEnum → RustTypeKind
  | Wrapper : RustWrapper → RustTypeKind
deriving Repr, DecidableEq

/-- `struct RustType` from `src/main.rs`. -/
structure RustType where
  title : Option String
  description : Option String
  name : String
  content : RustTypeKind
deriving Repr, DecidableEq

/-- `struct RustFieldType` from `src/main.rs`. -/
structure RustFieldType where
  type_name : String
  serde_as : Option String
deriving Repr, DecidableEq

/-- `get_field_type_override` from `src/main.rs`: the global hard-coded
override table. -/
def get_field_type_override (type_name : String) : Option RustFieldType :=
  match type_name with
  | "ADDRESS" | "STORAGE_KEY" | "TXN_HASH" | "FELT" | "BLOCK_HASH" | "CHAIN_ID"
  | "PROTOCOL_VERSION" =>
    some { type_name := "FieldElement", serde_as := some "UfeHex" }
  | "BLOCK_NUMBER" => some { type_name := "u64", serde_as := none }
  | "NUM_AS_HEX" => some { type_name := "u64", serde_as := some "NumAsHex" }
  | "ETH_ADDRESS" => some { type_name := "EthAddress", serde_as := none }
  | "SIGNATURE" =>
    some { type_name := "Vec<FieldElement>", serde_as := some "Vec<UfeHex>" }
  | "CONTRACT_ABI" => some { type_name := "Vec<ContractAbiEntry>", serde_as := none }
  | "CONTRACT_ENTRY_POINT_LIST" =>
    some { type_name := "Vec<ContractEntryPoint>", serde_as := none }
  | _ => none

/-- `get_rust_type_for_field` from `src/main.rs`. -/
def get_rust_type_for_field (schema : Schema) (specs : Specification) :
    Except String RustFieldType :=
  match schema with
  | Schema.ref name _ =>
    if (schemasGet specs name).isSome then
      Except.ok
        ((get_field_type_override name).getD
          { type_name := to_starknet_rs_name name, serde_as := none })
    else
      Except.error ("Ref target type not found: " ++ name)
  | Schema.oneOf _ _ =>
    Except.error "Anonymous oneOf types should not be used for properties"
  | Schema.allOf _ _ =>
    Except.error "Anonymous allOf types should not be used for properties"
  | Schema.primitive (Primitive.array items _) => do
    let item_type ← get_rust_type_for_field items specs
    Except.ok
      { type_name := "Vec<" ++ item_type.type_name ++ ">",
        serde_as := item_type.serde_as.map (fun serde_as => "Vec<" ++ serde_as ++ ">") }
  | Schema.primitive (Primitive.boolean _) =>
    Except.ok { type_name := "bool", serde_as := none }
  | Schema.primitive (Primitive.integer _) =>
    Except.ok { type_name := "u64", serde_as := none }
  | Schema.primitive (Primitive.object _ _) =>
    Except.error "Anonymous object types should not be used for properties"
  | Schema.primitive (Primitive.string _ _) =>
    Except.ok { type_name := "String", serde_as := none }

/-- The `for (name, prop_value) in value.properties.iter()` loop of
`flatten_schema_fields`: one `RustField` is appended per property, in
declaration order. -/
def flattenProperties (specs : Specification) :
    List (String × Schema) → List RustField → Except String (List RustField)
  | [], fields => Except.ok fields
  | (name, prop_value) :: rest, fields =>
    let doc_string :=
      match prop_value.title with
      | some text => some text
      | none =>
        match prop_value.description with
        | some text => some text
        | none => prop_value.summary
    match get_rust_type_for_field prop_value specs with
    | Except.error e => Except.error e
    | Except.ok field_type =>
      flattenProperties specs rest
        (fields ++
          [{ description := doc_string.map (fun value => to_starknet_rs_doc value false),
             name := name,
             type_name := field_type.type_name,
             serde_as := field_type.serde_as }])

mutual

/-- `flatten_schema_fields` from `src/main.rs`, with an explicit recursion
budget `fuel` consumed only on reference redirection (the one recursion of the
Rust code that is not structural; the Rust code would loop forever on a cyclic
reference chain, the model returns an error once the budget is exhausted).
The accumulator `fields` plays the role of the `&mut Vec<RustField>`
out-parameter. -/
def flatten_schema_fields (specs : Specification) :
    Nat → Schema → List RustField → Except String (List RustField)
  | fuel, Schema.ref name _, fields =>
    match schemasGet specs name with
    | some ref_type =>
      match fuel with
      | 0 => Except.error "recursion budget exhausted"
      | fuel' + 1 => flatten_schema_fields specs fuel' ref_type fields
    | none => Except.error ("Ref target type not found: " ++ name)
  | fuel, Schema.allOf value _, fields => flattenAllOf specs fuel value fields
  | _, Schema.primitive (Primitive.object value _), fields =>
    flattenProperties specs value fields
  | _, _, _ => Except.error "Unexpected schema type when getting object fields"
termination_by fuel s _ => (fuel, sizeOf s)

/-- The `for item in value.all_of.iter()` loop of `flatten_schema_fields`. -/
def flattenAllOf (specs : Specification) :
    Nat → List Schema → List RustField → Except String (List RustField)
  | _, [], fields => Except.ok fields
  | fuel, item :: rest, fields => do
    let fields' ← flatten_schema_fields specs fuel item fields
    flattenAllOf specs fuel rest fields'
termination_by fuel l _ => (fuel, sizeOf l)

end

/-- The per-schema loop body of `resolve_types` (`src/main.rs`): iterates the
entries of `components.schemas` in order, skipping names with a global
override, skipping (with a warning) top-level `OneOf` schemas and `AllOf` or
`Object` schemas whose flattening fails, and failing the whole run on
reference-resolution errors of a top-level `Ref`, on a non-enum top-level
`String`, and on any other top-level primitive.  `fuel` is the recursion
budget handed to `flatten_schema_fields`. -/
def resolveTypesGo (specs : Specification) (fuel : Nat) :
    List (String × Schema) → Except String (List RustType)
  | [] => Except.ok []
  | (name, entity) :: rest =>
    if (get_field_type_override name).isSome then
      resolveTypesGo specs fuel rest
    else
      let rusty_name := to_starknet_rs_name name
      let title := entity.title
      let description :=
        match entity.description with
        | some description => some description
        | none => entity.summary
      match entity with
      | Schema.ref _ _ => do
        let field_type ← get_rust_type_for_field entity specs
        let types ← resolveTypesGo specs fuel rest
        Except.ok
          ({ title := title.map (fun value => to_starknet_rs_doc value true),
             description := description.map (fun value => to_starknet_rs_doc value true),
             name := rusty_name,
             content := RustTypeKind.Wrapper { type_name := field_type.type_name } } :: types)
      | Schema.oneOf _ _ =>
        -- WARNING: enum generation with oneOf not implemented
        resolveTypesGo specs fuel rest
      | Schema.allOf _ _ | Schema.primitive (Primitive.object _ _) =>
        match flatten_schema_fields specs fuel entity [] with
        | Except.error _ =>
          -- WARNING: unable to generate struct (the schema is skipped, named in the log)
          resolveTypesGo specs fuel rest
        | Except.ok fields => do
          let types ← resolveTypesGo specs fuel rest
          Except.ok
            ({ title := title.map (fun value => to_starknet_rs_doc value true),
               description := description.map (fun value => to_starknet_rs_doc value true),
               name := rusty_name,
               content := RustTypeKind.Struct { fields := fields } } :: types)
      | Schema.primitive (Primitive.string value _) =>
        match value with
        | some variants => do
          let types ← resolveTypesGo specs fuel rest
          Except.ok
            ({ title := title.map (fun value => to_starknet_rs_doc value true),
               description := description.map (fun value => to_starknet_rs_doc value true),
               name := rusty_name,
               content :=
                 RustTypeKind.Enum
                   { variants :=
                       variants.map (fun item =>
                         { description := none,
                           name := to_starknet_rs_name item,
                           serde_name := item }) } } :: types)
        | none =>
          Except.error "Unexpected non-enum string type when generating struct/enum"
      | _ => Except.error "Unexpected schema type when generating struct/enum"

/-- `resolve_types` from `src/main.rs`. -/
def resolve_types (specs : Specification) (fuel : Nat) : Except String (List RustType) :=
  resolveTypesGo specs fuel specs.components.schemas

/-- The value of the `last_underscore` tracker after scanning `l`, starting at
index `ind` with current value `lastU`. -/
def lastUAfter (ind : Nat) (lastU : Option Nat) : List Char → Option Nat
  | [] => lastU
  | c :: rest => lastUAfter (ind + 1) (if c = '_' then some ind else lastU) rest

/-- A schema node carrying no documentation. -/
def mNone : Meta := ⟨none, none, none⟩

/-- The single-schema document of the enum example: `FOO` is a `String` with
literals `"a"` and `"b"`. -/
def fooSpecs : Specification :=
  ⟨⟨[("FOO", Schema.primitive (Primitive.string (some ["a", "b"]) mNone))]⟩⟩

/-- A document with one object schema `BASE` holding the integer field `x`. -/
def baseSpecs : Specification :=
  ⟨⟨[("BASE",
      Schema.primitive (Primitive.object
        [("x", Schema.primitive (Primitive.integer mNone))] mNone))]⟩⟩

/-- The `AllOf` of a `Reference` to `BASE` and an anonymous object with the
boolean field `extra`. -/
def allOfEx : Schema :=
  Schema.allOf
    [Schema.ref "BASE" mNone,
     Schema.primitive (Primitive.object
       [("extra", Schema.primitive (Primitive.boolean mNone))] mNone)] mNone

/-- A document declaring the overridden name `FELT`. -/
def feltSpecs : Specification :=
  ⟨⟨[("FELT", Schema.primitive (Primitive.string none mNone))]⟩⟩

/-- A document that declares `GOOD` but not `MISSING`. -/
def badSpecs : Specification :=
  ⟨⟨[("GOOD", Schema.primitive (Primitive.string (some ["a"]) mNone))]⟩⟩

/-- An `AllOf` whose only member references the absent name `MISSING`. -/
def badAllOf : Schema := Schema.allOf [Schema.ref "MISSING" mNone] mNone

theorem flattenProperties_append (specs : Specification)
    (props : List (String × Schema)) (acc : List RustField) :
    flattenProperties specs props acc =
      (flattenProperties specs props []).map (fun l => acc ++ l) := by
  induction props generalizing acc with
  | nil => simp [flattenProperties, Except.map]
  | cons p rest ih =>
    obtain ⟨name, prop⟩ := p
    simp only [flattenProperties]
    cases h : get_rust_type_for_field prop specs with
    | error e => simp [Except.map]
    | ok ft =>
      dsimp only
      rw [ih]
      conv_rhs => rw [List.nil_append, ih]
      cases flattenProperties specs rest [] with
      | error e => simp [Except.map]
      | ok l => simp [Except.map]

mutual

theorem flatten_append (specs : Specification) (fuel : Nat) (s : Schema)
    (acc : List RustField) :
    flatten_schema_fields specs fuel s acc =
      (flatten_schema_fields specs fuel s []).map (fun l => acc ++ l) := by
  cases s with
  | ref name m =>
    simp only [flatten_schema_fields]
    cases schemasGet specs name with
    | none => simp [Except.map]
    | some t =>
      cases fuel with
      | zero => simp [Except.map]
      | succ fuel' => exact flatten_append specs fuel' t acc
  | oneOf v m => simp [flatten_schema_fields, Except.map]
  | allOf v m =>
    simp only [flatten_schema_fields]
    exact flattenAllOf_append specs fuel v acc
  | primitive p =>
    cases p with
    | object props m =>
      simp only [flatten_schema_fields]
      exact flattenProperties_append specs props acc
    | array i m => simp [flatten_schema_fields, Except.map]
    | string e m => simp [flatten_schema_fields, Except.map]
    | boolean m => simp [flatten_schema_fields, Except.map]
    | integer m => simp [flatten_schema_fields, Except.map]
termination_by (fuel, sizeOf s)

theorem flattenAllOf_append (specs : Specification) (fuel : Nat)
    (items : List Schema) (acc : List RustField) :
    flattenAllOf specs fuel items acc =
      (flattenAllOf specs fuel items []).map (fun l => acc ++ l) := by
  cases items with
  | nil => simp [flattenAllOf, Except.map]
  | cons item rest =>
    simp only [flattenAllOf]
    rw [flatten_append specs fuel item acc]
    cases h : flatten_schema_fields specs fuel item [] with
    | error e => rfl
    | ok li =>
      show flattenAllOf specs fuel rest (acc ++ li) =
        Except.map (fun l => acc ++ l) (flattenAllOf specs fuel rest li)
      rw [flattenAllOf_append specs fuel rest (acc ++ li),
        flattenAllOf_append specs fuel rest li]
      cases flattenAllOf specs fuel rest [] with
      | error e => rfl
      | ok l => simp [Except.map]
termination_by (fuel, sizeOf items)

end

theorem flattenAllOf_mapM (specs : Specification) (fuel : Nat) (items : List Schema) :
    flattenAllOf specs fuel items [] =
      Except.map List.flatten
        (items.mapM (fun i => flatten_schema_fields specs fuel i [])) := by
  induction items with
  | nil => simp only [flattenAllOf]; rfl
  | cons item rest ih =>
    simp only [flattenAllOf, List.mapM_cons]
    cases h : flatten_schema_fields specs fuel item [] with
    | error e => rfl
    | ok li =>
      show flattenAllOf specs fuel rest li = _
      rw [flattenAllOf_append specs fuel rest li, ih]
      cases List.mapM (fun i => flatten_schema_fields specs fuel i []) rest with
      | error e => rfl
      | ok ls => rfl

mutual

theorem flatten_mono (specs : Specification) (fuel : Nat) (s : Schema)
    (acc r : List RustField)
    (h : flatten_schema_fields specs fuel s acc = Except.ok r) :
    flatten_schema_fields specs (fuel + 1) s acc = Except.ok r := by
  cases s with
  | ref name m =>
    simp only [flatten_schema_fields] at h ⊢
    cases hg : schemasGet specs name with
    | none => rw [hg] at h; exact absurd h (by simp)
    | some t =>
      rw [hg] at h
      cases fuel with
      | zero => exact absurd h (by simp)
      | succ fuel' => exact flatten_mono specs fuel' t acc r h
  | oneOf v m => simp only [flatten_schema_fields] at h; exact absurd h (by simp)
  | allOf v m =>
    simp only [flatten_schema_fields] at h ⊢
    exact flattenAllOf_mono specs fuel v acc r h
  | primitive p =>
    cases p with
    | object props m => simpa only [flatten_schema_fields] using h
    | array i m => simp only [flatten_schema_fields] at h; exact absurd h (by simp)
    | string e m => simp only [flatten_schema_fields] at h; exact absurd h (by simp)
    | boolean m => simp only [flatten_schema_fields] at h; exact absurd h (by simp)
    | integer m => simp only [flatten_schema_fields] at h; exact absurd h (by simp)
termination_by (fuel, sizeOf s)

theorem flattenAllOf_mono (specs : Specification) (fuel : Nat)
    (items : List Schema) (acc r : List RustField)
    (h : flattenAllOf specs fuel items acc = Except.ok r) :
    flattenAllOf specs (fuel + 1) items acc = Except.ok r := by
  cases items with
  | nil => simpa only [flattenAllOf] using h
  | cons item rest =>
    simp only [flattenAllOf] at h ⊢
    cases hi : flatten_schema_fields specs fuel item acc with
    | error e => rw [hi] at h; exact absurd h (by simp [Bind.bind, Except.bind])
    | ok fi =>
      rw [hi] at h
      rw [flatten_mono specs fuel item acc fi hi]
      show flattenAllOf specs (fuel + 1) rest fi = Except.ok r
      exact flattenAllOf_mono specs fuel rest fi r h
termination_by (fuel, sizeOf items)

end

theorem wrapGo_mem (p : Nat) (ws : List String) (cur l : String)
    (h : l ∈ wrapGo p cur ws) :
    p + l.length ≤ MAX_LINE_LENGTH ∨ l = cur ∨ l ∈ ws := by
  induction ws generalizing cur with
  | nil =>
    simp only [wrapGo, List.mem_singleton] at h
    exact Or.inr (Or.inl h)
  | cons w ws ih =>
    simp only [wrapGo] at h
    by_cases hc : p + cur.length + ((if cur = "" then "" else " ") ++ w).length ≤ MAX_LINE_LENGTH
    · rw [if_pos hc] at h
      rcases ih _ h with h1 | h1 | h1
      · exact Or.inl h1
      · subst h1
        refine Or.inl ?_
        rw [String.length_append]
        omega
      · exact Or.inr (Or.inr (List.mem_cons_of_mem _ h1))
    · rw [if_neg hc] at h
      rcases List.mem_cons.mp h with h1 | h1
      · exact Or.inr (Or.inl h1)
      · rcases ih _ h1 with h2 | h2 | h2
        · exact Or.inl h2
        · exact Or.inr (Or.inr (h2 ▸ List.mem_cons_self _ _))
        · exact Or.inr (Or.inr (List.mem_cons_of_mem _ h2))

theorem isLower_toLower (c : Char) (h : c.isAlpha = true) :
    (Char.toLower c).isLower = true := by
  have h' := h
  simp only [Char.isAlpha, Char.isUpper, Char.isLower, Bool.or_eq_true, Bool.and_eq_true,
    decide_eq_true_eq] at h'
  rcases h' with ⟨h1, h2⟩ | ⟨h1, h2⟩
  · have h65 : 65 ≤ c.toNat := UInt32.le_toNat_of_le (by norm_num) h1
    have h90 : c.toNat ≤ 90 := UInt32.toNat_le_of_le (by norm_num) h2
    rw [Char.toLower, if_pos ⟨h65, h90⟩]
    have h97 : 97 ≤ c.toNat + 32 := by omega
    have h122 : c.toNat + 32 ≤ 122 := by omega
    generalize c.toNat + 32 = m at h97 h122
    interval_cases m <;> decide
  · have h97 : 97 ≤ c.toNat := UInt32.le_toNat_of_le (by norm_num) h1
    rw [Char.toLower, if_neg (by omega)]
    simp only [Char.isLower, Bool.and_eq_true, decide_eq_true_eq]
    exact ⟨h1, h2⟩

theorem toPascalGo_fix (rest : List Char) (ind : Nat) (h0 : ind ≠ 0)
    (h : ∀ x ∈ rest, x ≠ '_' ∧ Char.toLower x = x) :
    toPascalGo ind none rest = rest := by
  induction rest generalizing ind with
  | nil => rfl
  | cons c cs ih =>
    have hc := h c (List.mem_cons_self _ _)
    have hb : (ind == 0) = false := by simp [h0]
    simp only [toPascalGo, if_neg hc.1, hb, Bool.false_eq_true, if_false]
    rw [hc.2, ih (ind + 1) (Nat.succ_ne_zero ind)
      (fun x hx => h x (List.mem_cons_of_mem _ hx))]

theorem toPascalGo_append (xs ys : List Char) (ind : Nat) (lastU : Option Nat) :
    toPascalGo ind lastU (xs ++ ys) =
      toPascalGo ind lastU xs ++
        toPascalGo (ind + xs.length) (lastUAfter ind lastU xs) ys := by
  induction xs generalizing ind lastU with
  | nil => simp [toPascalGo, lastUAfter]
  | cons c cs ih =>
    by_cases hc : c = '_'
    · simp only [List.cons_append, toPascalGo, if_pos hc, lastUAfter,
        List.length_cons, List.append_eq]
      have heq : ind + (cs.length + 1) = (ind + 1) + cs.length := by omega
      rw [heq, ih]
    · simp only [List.cons_append, toPascalGo, if_neg hc, lastUAfter,
        List.length_cons, List.append_eq]
      have heq : ind + (cs.length + 1) = (ind + 1) + cs.length := by omega
      rw [heq, ih]

theorem lastUAfter_lt (xs : List Char) (ind : Nat) (lastU : Option Nat)
    (h : ∀ l, lastU = some l → l < ind) :
    ∀ l', lastUAfter ind lastU xs = some l' → l' < ind + xs.length := by
  induction xs generalizing ind lastU with
  | nil => intro l' hl'; simpa using h l' hl'
  | cons c cs ih =>
    intro l' hl'
    simp only [lastUAfter] at hl'
    have hstep : ∀ l, (if c = '_' then some ind else lastU) = some l → l < ind + 1 := by
      intro l hsome
      by_cases hcu : c = '_'
      · rw [if_pos hcu] at hsome
        injection hsome with hh
        omega
      · rw [if_neg hcu] at hsome
        exact Nat.lt_succ_of_lt (h l hsome)
    have := ih (ind + 1) _ hstep l' hl'
    simp only [List.length_cons]
    omega

theorem replGo_id (pat rep : List Char) (n : Nat) (l : List Char)
    (h : ∀ t ∈ l.tails, ¬ pat.isPrefixOf t = true) : replGo pat rep n l = l := by
  induction n generalizing l with
  | zero => cases l <;> rfl
  | succ n ih =>
    cases l with
    | nil => rfl
    | cons c cs =>
      have hp : ¬ pat.isPrefixOf (c :: cs) = true :=
        h _ ((List.mem_tails _ _).mpr (List.suffix_refl _))
      simp only [replGo]
      rw [if_neg (fun hand => hp hand.2)]
      congr 1
      refine ih cs (fun t ht => h t ?_)
      rw [List.tails_cons]
      exact List.mem_cons_of_mem _ ht

theorem no_upper_tails (pat : List Char) (c : Char) (rest : List Char)
    (hhead : ¬ pat.isPrefixOf (c :: rest) = true)
    (hT : ∀ x ∈ rest, x ≠ 'T')
    (hpat : ∃ ps, pat = 'T' :: ps) :
    ∀ t ∈ (c :: rest).tails, ¬ pat.isPrefixOf t = true := by
  intro t ht
  rw [List.tails_cons, List.mem_cons] at ht
  rcases ht with ht | ht
  · exact ht ▸ hhead
  · rw [List.mem_tails _ _] at ht
    obtain ⟨ps, hps⟩ := hpat
    cases t with
    | nil => subst hps; simp [List.isPrefixOf]
    | cons x t' =>
      have hx : x ∈ rest := ht.subset (List.mem_cons_self _ _)
      subst hps
      simp only [List.isPrefixOf, Bool.and_eq_true, beq_iff_eq]
      rintro ⟨hTx, -⟩
      exact hT x hx hTx.symm


/-- C1: for every schema name with a global override, `resolve_types` skips the
name entirely (no standalone declaration is generated for that entry), and
every field whose schema is a `Reference` to that name resolves, through
`get_rust_type_for_field`, to the override's type name and serialization hint
rather than to the default descriptor built from `to_starknet_rs_name`. -/
theorem override_skips_toplevel_and_resolves_reference
    (N : String) (fd : RustFieldType) (m : Meta) (specs : Specification)
    (entity : Schema) (rest : List (String × Schema)) (fuel : Nat)
    (hov : get_field_type_override N = some fd)
    (hmem : (schemasGet specs N).isSome = true) :
    resolveTypesGo specs fuel ((N, entity) :: rest) = resolveTypesGo specs fuel rest ∧
    get_rust_type_for_field (Schema.ref N m) specs = Except.ok fd := by
  constructor
  · simp [resolveTypesGo, hov]
  · simp [get_rust_type_for_field, hmem, hov]

/-- Witness for C1 at the overridden name `FELT`. -/
theorem override_skips_toplevel_and_resolves_reference_witness :
    resolveTypesGo feltSpecs 0
        [("FELT", Schema.primitive (Primitive.string none mNone))] =
      resolveTypesGo feltSpecs 0 [] ∧
    get_rust_type_for_field (Schema.ref "FELT" mNone) feltSpecs =
      Except.ok { type_name := "FieldElement", serde_as := some "UfeHex" } :=
  override_skips_toplevel_and_resolves_reference "FELT"
    { type_name := "FieldElement", serde_as := some "UfeHex" } mNone feltSpecs
    (Schema.primitive (Primitive.string none mNone)) [] 0 rfl rfl


/-- C2: an unresolved `Reference` error raised while flattening the fields of a
top-level `AllOf` or `Object` schema only skips that schema (generation
continues exactly as if the entry were absent), while the same unresolved
`Reference` occurring as the sole top-level shape of a named schema makes
`resolve_types` return the error for the whole run. -/
theorem unresolved_ref_skip_vs_fail
    (specs : Specification) (fuel : Nat) (n missing : String)
    (rest : List (String × Schema)) :
    (∀ entity : Schema,
      get_field_type_override n = none →
      ((∃ items m, entity = Schema.allOf items m) ∨
        (∃ props m, entity = Schema.primitive (Primitive.object props m))) →
      flatten_schema_fields specs fuel entity [] =
        Except.error ("Ref target type not found: " ++ missing) →
      resolveTypesGo specs fuel ((n, entity) :: rest) = resolveTypesGo specs fuel rest) ∧
    (∀ m : Meta,
      get_field_type_override n = none →
      schemasGet specs missing = none →
      resolveTypesGo specs fuel ((n, Schema.ref missing m) :: rest) =
        Except.error ("Ref target type not found: " ++ missing)) := by
  constructor
  · rintro entity hov (⟨items, m, rfl⟩ | ⟨props, m, rfl⟩) hflat <;>
      simp [resolveTypesGo, hov, hflat]
  · intro m hov hlook
    simp [resolveTypesGo, hov, get_rust_type_for_field, hlook]
    rfl

/-- Witness for C2 on a document missing the schema `MISSING`. -/
theorem unresolved_ref_skip_vs_fail_witness :
    resolveTypesGo badSpecs 1 [("BAD", badAllOf)] = resolveTypesGo badSpecs 1 [] ∧
    resolveTypesGo badSpecs 1 [("SOLO", Schema.ref "MISSING" mNone)] =
      Except.error ("Ref target type not found: " ++ "MISSING") := by
  constructor
  · refine (unresolved_ref_skip_vs_fail badSpecs 1 "BAD" "MISSING" []).1 badAllOf rfl
      (Or.inl ⟨_, _, rfl⟩) ?_
    simp [badAllOf, flatten_schema_fields, flattenAllOf, badSpecs, schemasGet]
    rfl
  · exact (unresolved_ref_skip_vs_fail badSpecs 1 "SOLO" "MISSING" []).2 mNone rfl rfl

/-- C3: when every member of an `AllOf` flattens successfully, flattening the
`AllOf` produces exactly the concatenation, in declared member order (left to
right), of the members' own flattened field lists; in particular the example
of a `Reference` to `BASE` (field `x`) followed by an anonymous object (field
`extra`) yields the fields `x` then `extra`, in that order. -/
theorem allOf_flatten_concat :
    (∀ (specs : Specification) (fuel : Nat) (items : List Schema) (m : Meta)
      (ls : List (List RustField)),
      items.mapM (fun i => flatten_schema_fields specs fuel i []) = Except.ok ls →
      flatten_schema_fields specs fuel (Schema.allOf items m) [] =
        Except.ok ls.flatten) ∧
    flatten_schema_fields baseSpecs 1 allOfEx [] =
      Except.ok [⟨none, "x", "u64", none⟩, ⟨none, "extra", "bool", none⟩] := by
  constructor
  · intro specs fuel items m ls h
    have heq : flatten_schema_fields specs fuel (Schema.allOf items m) [] =
        flattenAllOf specs fuel items [] := by
      simp [flatten_schema_fields]
    rw [heq, flattenAllOf_mapM, h]
    rfl
  · simp [flatten_schema_fields, flattenAllOf, flattenProperties, allOfEx, baseSpecs,
      schemasGet, get_rust_type_for_field, Schema.title, Schema.description,
      Schema.summary, Primitive.title, Primitive.description, Primitive.summary, mNone]
    rfl

/-- Witness for C3 at the `BASE`-plus-anonymous-object example. -/
theorem allOf_flatten_concat_witness :
    flatten_schema_fields baseSpecs 1 allOfEx [] =
      Except.ok
        (([[{ description := none, name := "x", type_name := "u64", serde_as := none }],
           [{ description := none, name := "extra", type_name := "bool",
              serde_as := none }]] :
            List (List RustField)).flatten) := by
  refine allOf_flatten_concat.1 baseSpecs 1 _ mNone
    [[{ description := none, name := "x", type_name := "u64", serde_as := none }],
     [{ description := none, name := "extra", type_name := "bool", serde_as := none }]]
    ?_
  have h1 : flatten_schema_fields baseSpecs 1 (Schema.ref "BASE" mNone) [] =
      Except.ok [(⟨none, "x", "u64", none⟩ : RustField)] := by
    simp [flatten_schema_fields, flattenProperties, baseSpecs, schemasGet,
      get_rust_type_for_field, Schema.title, Schema.description, Schema.summary,
      Primitive.title, Primitive.description, Primitive.summary, mNone]
  have h2 : flatten_schema_fields baseSpecs 1
      (Schema.primitive (Primitive.object
        [("extra", Schema.primitive (Primitive.boolean mNone))] mNone)) [] =
      Except.ok [(⟨none, "extra", "bool", none⟩ : RustField)] := by
    simp [flatten_schema_fields, flattenProperties, baseSpecs, schemasGet,
      get_rust_type_for_field, Schema.title, Schema.description, Schema.summary,
      Primitive.title, Primitive.description, Primitive.summary, mNone]
  rw [List.mapM_cons, List.mapM_cons, List.mapM_nil, h1, h2]
  rfl

/-- C5: for a `Reference` whose target name is present in the specification,
flattening the reference produces exactly the same field list, in the same
order, as flattening the referenced schema directly (the reference only
redirects; one extra unit of recursion budget absorbs the redirection, and
budget monotonicity gives the same result for the target at the larger
budget). -/
theorem flatten_ref_eq_flatten_target
    (specs : Specification) (name : String) (m : Meta) (target : Schema)
    (fuel : Nat) (acc out : List RustField)
    (hlook : schemasGet specs name = some target)
    (hok : flatten_schema_fields specs fuel target acc = Except.ok out) :
    flatten_schema_fields specs (fuel + 1) (Schema.ref name m) acc = Except.ok out ∧
    flatten_schema_fields specs (fuel + 1) target acc = Except.ok out := by
  constructor
  · simp only [flatten_schema_fields, hlook]
    exact hok
  · exact flatten_mono specs fuel target acc out hok

/-- Witness for C5 at the `BASE` reference. -/
theorem flatten_ref_eq_flatten_target_witness :
    flatten_schema_fields baseSpecs 1 (Schema.ref "BASE" mNone) [] =
      Except.ok [⟨none, "x", "u64", none⟩] ∧
    flatten_schema_fields baseSpecs 1
        (Schema.primitive (Primitive.object
          [("x", Schema.primitive (Primitive.integer mNone))] mNone)) [] =
      Except.ok [⟨none, "x", "u64", none⟩] := by
  refine flatten_ref_eq_flatten_target baseSpecs "BASE" mNone _ 0 [] _ rfl ?_
  simp [flatten_schema_fields, flattenProperties, baseSpecs, schemasGet,
    get_rust_type_for_field, Schema.title, Schema.description, Schema.summary,
    Primitive.title, Primitive.description, Primitive.summary, mNone]

/-- C4: a top-level `String` primitive carrying an enumerated literal set
generates an `Enum` descriptor with exactly one variant per literal in
declared order, variant identifier `to_starknet_rs_name literal` and wire
value the literal text verbatim; in particular the document with the single
schema `FOO` enumerating `"a"` and `"b"` yields exactly one `Enum` named
`Foo` whose wire values are exactly `"a"` and `"b"`. -/
theorem string_enum_generates_enum :
    (∀ (specs : Specification) (fuel : Nat) (name : String)
      (variants : List String) (m : Meta) (rest : List (String × Schema)),
      get_field_type_override name = none →
      resolveTypesGo specs fuel
          ((name, Schema.primitive (Primitive.string (some variants) m)) :: rest) =
        Except.map
          (fun types =>
            { title := m.title.map (fun value => to_starknet_rs_doc value true),
              description :=
                (match m.description with
                  | some description => some description
                  | none => m.summary).map
                  (fun value => to_starknet_rs_doc value true),
              name := to_starknet_rs_name name,
              content :=
                RustTypeKind.Enum
                  { variants :=
                      variants.map (fun item =>
                        { description := none, name := to_starknet_rs_name item,
                          serde_name := item }) } } :: types)
          (resolveTypesGo specs fuel rest)) ∧
    resolve_types fooSpecs 0 =
      Except.ok
        [{ title := none, description := none, name := "Foo",
           content := RustTypeKind.Enum
             { variants := [⟨none, "A", "a"⟩, ⟨none, "B", "b"⟩] } }] := by
  constructor
  · intro specs fuel name variants m rest hov
    simp only [resolveTypesGo, hov, Option.isSome_none, Bool.false_eq_true, if_false,
      Schema.title, Schema.description, Schema.summary, Primitive.title,
      Primitive.description, Primitive.summary]
    cases resolveTypesGo specs fuel rest with
    | error e => rfl
    | ok types => rfl
  · rfl

/-- Witness for C4 at the `FOO` document. -/
theorem string_enum_generates_enum_witness :
    resolveTypesGo fooSpecs 0
        [("FOO", Schema.primitive (Primitive.string (some ["a", "b"]) mNone))] =
      Except.ok
        [{ title := none, description := none, name := "Foo",
           content := RustTypeKind.Enum
             { variants := [⟨none, "A", "a"⟩, ⟨none, "B", "b"⟩] } }] := by
  have h := string_enum_generates_enum.1 fooSpecs 0 "FOO" ["a", "b"] mNone [] rfl
  rw [h]
  rfl

/-- C6: every line produced by `wrap_lines` has length at most `100 - p`,
except a line consisting of a single space-delimited input word whose own
length exceeds `100 - p`; such an over-long word is carried whole onto its
own line, never split. -/
theorem wrap_lines_length_bound (doc : String) (p : Nat) (l : String)
    (h : l ∈ wrap_lines doc p) :
    l.length ≤ 100 - p ∨ (l ∈ split_space doc ∧ 100 - p < l.length) := by
  rcases wrapGo_mem p (split_space doc) "" l h with h1 | h1 | h1
  · left
    simp only [MAX_LINE_LENGTH] at h1
    omega
  · left
    subst h1
    simp
  · by_cases hlen : l.length ≤ 100 - p
    · exact Or.inl hlen
    · exact Or.inr ⟨h1, by omega⟩

/-- Witness for C6 at prefix length 96. -/
theorem wrap_lines_length_bound_witness :
    ("hello" : String).length ≤ 100 - 96 ∨
      ("hello" ∈ split_space "hello world" ∧
        100 - 96 < ("hello" : String).length) :=
  wrap_lines_length_bound "hello world" 96 "hello" (by decide)

/-- C7 counterexample: `"BlockHash"` is PascalCase and contains no underscore,
yet `to_starknet_rs_name` does not return it unchanged — the interior capital
is lowercased, so the claim as stated fails on this input. -/
theorem identifierName_not_idempotent_on_pascal :
    to_starknet_rs_name "BlockHash" ≠ "BlockHash" := by decide

/-- C7 (amended): `to_starknet_rs_name` returns its input unchanged when the
input is a single capitalized word — a first character fixed by ASCII
uppercasing followed by characters fixed by ASCII lowercasing, with no
underscore — that does not begin with `"Txn"`; and
`to_starknet_rs_name "txn_hash"` is exactly `"TransactionHash"`. -/
theorem identifierName_fixed_on_capitalized_word (c : Char) (rest : List Char)
    (hc : c ≠ '_') (hup : c.toUpper = c)
    (hrest : ∀ x ∈ rest, x ≠ '_' ∧ x.toLower = x)
    (hTxn : ¬ (['T', 'x', 'n'].isPrefixOf (c :: rest)) = true) :
    to_starknet_rs_name ⟨c :: rest⟩ = ⟨c :: rest⟩ ∧
    to_starknet_rs_name "txn_hash" = "TransactionHash" := by
  refine ⟨?_, by decide⟩
  have hpc : to_pascal_case ⟨c :: rest⟩ = ⟨c :: rest⟩ := by
    show (⟨toPascalGo 0 none (c :: rest)⟩ : String) = ⟨c :: rest⟩
    congr 1
    simp only [toPascalGo, if_neg hc]
    rw [show ((0 : Nat) == 0) = true from rfl]
    simp only [if_true]
    rw [hup, toPascalGo_fix rest 1 (by omega) hrest]
  show replaceS (to_pascal_case ⟨c :: rest⟩) "Txn" "Transaction" = ⟨c :: rest⟩
  rw [hpc]
  show (⟨replGo ['T', 'x', 'n'] "Transaction".data (c :: rest).length (c :: rest)⟩ :
    String) = ⟨c :: rest⟩
  congr 1
  refine replGo_id _ _ _ _ (no_upper_tails _ c rest hTxn ?_ ⟨['x', 'n'], rfl⟩)
  intro x hx hxT
  have := (hrest x hx).2
  rw [hxT] at this
  exact absurd this (by decide)

/-- Witness for the amended C7 at the input `"Foo"`. -/
theorem identifierName_fixed_on_capitalized_word_witness :
    to_starknet_rs_name "Foo" = "Foo" ∧
    to_starknet_rs_name "txn_hash" = "TransactionHash" :=
  identifierName_fixed_on_capitalized_word 'F' ['o', 'o'] (by decide) (by decide)
    (by decide) (by decide)

/-- C8 counterexample: `to_sentence_case` does not leave the leading
`"starknet"` uncapitalized — the first character of the input is always
uppercased — so the output is not `"starknet.io address. Some text"`. -/
theorem sentence_case_no_leading_capital_fails :
    to_sentence_case "starknet.io address. some text" ≠
      "starknet.io address. Some text" := by decide

/-- C8 (amended): on `"starknet.io address. some text"` the function
capitalizes `"some"` (it follows the period-space pair) and also the leading
`"starknet"` (the first-character rule), while `"io"` after `"starknet."`
stays lowercase because no space follows that period: the result is exactly
`"Starknet.io address. Some text"`. -/
theorem sentence_case_capitalizes_first_and_after_period :
    to_sentence_case "starknet.io address. some text" =
      "Starknet.io address. Some text" := by decide

theorem toPascalGo_length (l : List Char) (ind : Nat) (lastU : Option Nat) :
    (toPascalGo ind lastU l).length = (l.filter (fun x => x ≠ '_')).length := by
  induction l generalizing ind lastU with
  | nil => rfl
  | cons c cs ih =>
    by_cases hc : c = '_'
    · subst hc
      simp only [toPascalGo, if_pos rfl, List.filter_cons]
      simp [ih]
    · simp only [toPascalGo, if_neg hc, List.filter_cons]
      simp [hc, ih]

theorem pascal_decomp (A : List Char) (e x : Char) (R : List Char) (k : Nat)
    (hA : A.length = k) (hx : x.isLower = true) :
    ∃ out1 out2 : List Char,
      A ++ e :: x :: R = out1 ++ x :: out2 ∧ out1 ≠ [] ∧ out1.length = k + 1 ∧
      x.isLower = true :=
  ⟨A ++ [e], R, by simp, by simp, by simp [hA], hx⟩

/-- C9: any alphabetic input character that is neither the first character nor
immediately preceded by an underscore is emitted by `to_pascal_case` as its
ASCII-lowercase form, at exactly its own position in the output — the position
after the images of the preceding non-underscore characters (underscores are
the only characters the conversion drops), which is never the initial one —
regardless of its case in the input. -/
theorem to_pascal_case_interior_lowercase
    (pre post : List Char) (a c : Char)
    (ha : a ≠ '_') (hc : c ≠ '_') (hca : c.isAlpha = true) :
    ∃ out1 out2 : List Char,
      (to_pascal_case ⟨pre ++ a :: c :: post⟩).data = out1 ++ c.toLower :: out2 ∧
      out1 ≠ [] ∧
      out1.length = ((pre ++ [a]).filter (fun x => x ≠ '_')).length ∧
      (c.toLower).isLower = true := by
  have hdata : (to_pascal_case ⟨pre ++ a :: c :: post⟩).data =
      toPascalGo 0 none pre ++
        toPascalGo (0 + pre.length) (lastUAfter 0 none pre) (a :: c :: post) := by
    show toPascalGo 0 none (pre ++ a :: c :: post) = _
    exact toPascalGo_append pre _ 0 none
  have hflag : (match lastUAfter 0 none pre with
      | some l => (0 + pre.length + 1) == l + 1
      | none => ((0 + pre.length + 1) == 0)) = false := by
    cases hlu : lastUAfter 0 none pre with
    | none => simp
    | some l =>
      have hlt := lastUAfter_lt pre 0 none (by intro l h; cases h) l hlu
      simp only [Nat.zero_add] at hlt ⊢
      have hne : pre.length ≠ l := by omega
      simp [hne]
  have hlen : (toPascalGo 0 none pre).length + 1 =
      ((pre ++ [a]).filter (fun x => x ≠ '_')).length := by
    rw [toPascalGo_length pre 0 none, List.filter_append]
    simp [ha]
  rw [hdata]
  simp only [toPascalGo, if_neg ha, if_neg hc, hflag, Bool.false_eq_true, if_false]
  obtain ⟨out1, out2, h1, h2, h3, h4⟩ :=
    pascal_decomp (toPascalGo 0 none pre) _ c.toLower
      (toPascalGo (0 + pre.length + 1 + 1) (lastUAfter 0 none pre) post)
      (toPascalGo 0 none pre).length rfl (isLower_toLower c hca)
  exact ⟨out1, out2, h1, h2, by rw [h3, hlen], h4⟩

/-- Witness for C9 at the input `"abCd"`. -/
theorem to_pascal_case_interior_lowercase_witness :
    ∃ out1 out2 : List Char,
      (to_pascal_case ⟨['a', 'b', 'C', 'd']⟩).data = out1 ++ 'C'.toLower :: out2 ∧
      out1 ≠ [] ∧
      out1.length = ((['a'] ++ ['b']).filter (fun x => x ≠ '_')).length ∧
      ('C'.toLower).isLower = true :=
  to_pascal_case_interior_lowercase ['a'] ['d'] 'b' 'C' (by decide) (by decide)
    (by decide)

/-- C10: when the first space-delimited word of the input is longer than `100`
minus the prefix length, the first line returned by `wrap_lines` is the empty
string. -/
theorem wrap_overlong_first_word_empty_first_line
    (doc : String) (p : Nat) (w : String) (ws : List String)
    (hsplit : split_space doc = w :: ws) (hlen : 100 - p < w.length) :
    (wrap_lines doc p).head? = some "" := by
  unfold wrap_lines
  rw [hsplit]
  have hcond : ¬ (p + ("" : String).length + (("" : String) ++ w).length ≤
      MAX_LINE_LENGTH) := by
    rw [String.length_append]
    have hzero : ("" : String).length = 0 := rfl
    rw [hzero]
    simp only [MAX_LINE_LENGTH]
    omega
  show (if p + ("" : String).length + (("" : String) ++ w).length ≤ MAX_LINE_LENGTH
      then wrapGo p ("" ++ (("" : String) ++ w)) ws
      else "" :: wrapGo p w ws).head? = some ""
  rw [if_neg hcond]
  rfl

/-- Witness for C10 at prefix length 96. -/
theorem wrap_overlong_first_word_empty_first_line_witness :
    (wrap_lines "hello world" 96).head? = some "" :=
  wrap_overlong_first_word_empty_first_line "hello world" 96 "hello"
    ["world"] (by decide) (by decide)
